import Mathlib

/-!
# Verification of the Farm incident work-order core (`src/main_chat.py`)

Shallow embedding of the two cores of the repository:

* the dedup-key generator `make_work_order_key` and the SQLite-backed
  work-order store (`db_init` / `upsert_work_order`), and
* the streaming tool-call extraction loop `run_agent_stream_get_tool_args`.

Python strings are modelled as Lean `String`; byte strings as `List Nat`
(each entry `< 256`); machine-width arithmetic inside SHA-256 is `Nat`
with explicit `% 2 ^ 32`.  `str.strip()` / `str.lower()` are modelled on
the ASCII range, where Python and this model agree (every value the
claims exercise is ASCII).
-/

namespace FarmPolice

/-! ## Python string canonicalization: `.strip()` and `.lower()` -/

/-- The whitespace characters Python's `str.strip()` removes (ASCII range). -/
def isPyWs (c : Char) : Bool :=
  c = ' ' || c = '\t' || c = '\n' || c = '\r' || c = '\x0b' || c = '\x0c'

/-- Python `str.strip()`: drop leading and trailing whitespace. -/
def pyStrip (s : String) : String :=
  String.mk (((s.data.dropWhile isPyWs).reverse.dropWhile isPyWs).reverse)

/-- Python `str.lower()` on one character (ASCII range). -/
def pyLowerChar (c : Char) : Char :=
  if 'A' ≤ c ∧ c ≤ 'Z' then Char.ofNat (c.toNat + 32) else c

/-- Python `str.lower()` (ASCII range). -/
def pyLower (s : String) : String :=
  String.mk (s.data.map pyLowerChar)

/-! ## UTF-8 encoding (`str.encode("utf-8")`) -/

/-- UTF-8 encoding of one code point, as bytes. -/
def utf8Char (c : Char) : List Nat :=
  let n := c.toNat
  if n < 128 then [n]
  else if n < 2048 then [192 + n / 64, 128 + n % 64]
  else if n < 65536 then [224 + n / 4096, 128 + n / 64 % 64, 128 + n % 64]
  else [240 + n / 262144, 128 + n / 4096 % 64, 128 + n / 64 % 64, 128 + n % 64]

/-- UTF-8 encoding of a string, as a list of bytes. -/
def utf8Encode (s : String) : List Nat :=
  s.data.flatMap utf8Char

/-! ## SHA-256 (`hashlib.sha256(...).hexdigest()`)

Executable model of the SHA-256 function from FIPS 180-4, over `Nat`
with explicit reduction `% 2 ^ 32` wherever 32-bit overflow matters. -/

/-- Reduce to a 32-bit word. -/
def w32 (n : Nat) : Nat := n % 4294967296

/-- 32-bit modular addition. -/
def add32 (a b : Nat) : Nat := (a + b) % 4294967296

/-- Right-rotation of a 32-bit word by `n` bits. -/
def rotr32 (n x : Nat) : Nat :=
  (x / 2 ^ n) + (x % 2 ^ n) * 2 ^ (32 - n)

/-- 32-bit bitwise complement. -/
def not32 (x : Nat) : Nat := Nat.xor x 4294967295

/-- The 64 SHA-256 round constants (FIPS 180-4 §4.2.2, in decimal). -/
def shaK : List Nat :=
  [1116352408, 1899447441, 3049323471, 3921009573, 961987163,
   1508970993, 2453635748, 2870763221, 3624381080, 310598401,
   607225278, 1426881987, 1925078388, 2162078206, 2614888103,
   3248222580, 3835390401, 4022224774, 264347078, 604807628,
   770255983, 1249150122, 1555081692, 1996064986, 2554220882,
   2821834349, 2952996808, 3210313671, 3336571891, 3584528711,
   113926993, 338241895, 666307205, 773529912, 1294757372,
   1396182291, 1695183700, 1986661051, 2177026350, 2456956037,
   2730485921, 2820302411, 3259730800, 3345764771, 3516065817,
   3600352804, 4094571909, 275423344, 430227734, 506948616,
   659060556, 883997877, 958139571, 1322822218, 1537002063,
   1747873779, 1955562222, 2024104815, 2227730452, 2361852424,
   2428436474, 2756734187, 3204031479, 3329325298]

/-- Big-endian 8-byte encoding of a (length) value. -/
def beBytes8 (n : Nat) : List Nat :=
  [n / 2 ^ 56 % 256, n / 2 ^ 48 % 256, n / 2 ^ 40 % 256, n / 2 ^ 32 % 256,
   n / 2 ^ 24 % 256, n / 2 ^ 16 % 256, n / 2 ^ 8 % 256, n % 256]

/-- Big-endian 4-byte encoding of a 32-bit word. -/
def beBytes4 (n : Nat) : List Nat :=
  [n / 2 ^ 24 % 256, n / 2 ^ 16 % 256, n / 2 ^ 8 % 256, n % 256]

/-- SHA-256 padding: append `0x80`, zero bytes to 56 mod 64, then the
bit length as 8 big-endian bytes. -/
def padMessage (m : List Nat) : List Nat :=
  let L := m.length
  let k := (119 - L % 64) % 64
  m ++ 128 :: List.replicate k 0 ++ beBytes8 (8 * L)

/-- Split a byte list into 64-byte chunks (structural recursion on a fuel
bound, so the kernel can evaluate it; the fuel `l.length` always
suffices, as each step strictly shortens the list). -/
def chunks64Go : Nat → List Nat → List (List Nat)
  | _, [] => []
  | 0, _ :: _ => []
  | fuel + 1, b :: bs => ((b :: bs).take 64) :: chunks64Go fuel ((b :: bs).drop 64)

/-- Split a byte list into 64-byte chunks. -/
def chunks64 (l : List Nat) : List (List Nat) :=
  chunks64Go l.length l

/-- Pack bytes into big-endian 32-bit words. -/
def toWords : List Nat → List Nat
  | b0 :: b1 :: b2 :: b3 :: rest => (((b0 * 256 + b1) * 256 + b2) * 256 + b3) :: toWords rest
  | _ => []

/-- One step of the SHA-256 message-schedule extension. -/
def scheduleStep (w : Array Nat) (i : Nat) : Array Nat :=
  let x15 := w.get! (i - 15)
  let x2 := w.get! (i - 2)
  let s0 := Nat.xor (Nat.xor (rotr32 7 x15) (rotr32 18 x15)) (x15 / 2 ^ 3)
  let s1 := Nat.xor (Nat.xor (rotr32 17 x2) (rotr32 19 x2)) (x2 / 2 ^ 10)
  w.push (add32 (add32 (w.get! (i - 16)) s0) (add32 (w.get! (i - 7)) s1))

/-- The 64-word message schedule of one chunk. -/
def schedule (first16 : List Nat) : List Nat :=
  ((List.range 48).foldl (fun w j => scheduleStep w (j + 16)) (Array.mk first16)).toList

/-- The eight 32-bit working variables / hash state of SHA-256. -/
structure H8 where
  a : Nat
  b : Nat
  c : Nat
  d : Nat
  e : Nat
  f : Nat
  g : Nat
  h : Nat

/-- One SHA-256 compression round on the working variables. -/
def compressRound (st : H8) (wk : Nat × Nat) : H8 :=
  let S1 := Nat.xor (Nat.xor (rotr32 6 st.e) (rotr32 11 st.e)) (rotr32 25 st.e)
  let ch := Nat.xor (Nat.land st.e st.f) (Nat.land (not32 st.e) st.g)
  let t1 := add32 st.h (add32 S1 (add32 ch (add32 wk.1 wk.2)))
  let S0 := Nat.xor (Nat.xor (rotr32 2 st.a) (rotr32 13 st.a)) (rotr32 22 st.a)
  let mj := Nat.xor (Nat.xor (Nat.land st.a st.b) (Nat.land st.a st.c)) (Nat.land st.b st.c)
  let t2 := add32 S0 mj
  ⟨add32 t1 t2, st.a, st.b, st.c, add32 st.d t1, st.e, st.f, st.g⟩

/-- Process one 64-byte chunk, updating the hash state. -/
def processChunk (hv : H8) (chunk : List Nat) : H8 :=
  let ws := schedule (toWords chunk)
  let st := (ws.zip shaK).foldl compressRound hv
  ⟨add32 hv.a st.a, add32 hv.b st.b, add32 hv.c st.c, add32 hv.d st.d,
   add32 hv.e st.e, add32 hv.f st.f, add32 hv.g st.g, add32 hv.h st.h⟩

/-- The SHA-256 initial hash value (FIPS 180-4 §5.3.3, in decimal). -/
def shaH0 : H8 :=
  ⟨1779033703, 3144134277, 1013904242, 2773480762,
   1359893119, 2600822924, 528734635, 1541459225⟩

/-- The 32 digest bytes of a final hash state (big-endian words). -/
def h8Bytes (hv : H8) : List Nat :=
  beBytes4 hv.a ++ beBytes4 hv.b ++ beBytes4 hv.c ++ beBytes4 hv.d ++
  beBytes4 hv.e ++ beBytes4 hv.f ++ beBytes4 hv.g ++ beBytes4 hv.h

/-- SHA-256 digest of a byte message, as 32 bytes. -/
def sha256Bytes (m : List Nat) : List Nat :=
  h8Bytes ((chunks64 (padMessage m)).foldl processChunk shaH0)

/-- The lowercase hexadecimal digit characters, in value order. -/
def hexChars : List Char :=
  "0123456789abcdef".data

/-- The lowercase hex digit for a value `< 16`. -/
def hexDigitChar (n : Nat) : Char :=
  hexChars.getD n 'f'

/-- Two lowercase hex digits of one byte. -/
def byteHex (b : Nat) : List Char :=
  [hexDigitChar (b / 16 % 16), hexDigitChar (b % 16)]

/-- Lowercase hex rendering of a byte list. -/
def bytesHex : List Nat → List Char
  | [] => []
  | b :: r => byteHex b ++ bytesHex r

/-- `hashlib.sha256(m).hexdigest()`: lowercase hex digest of a byte message. -/
def sha256Hex (m : List Nat) : String :=
  String.mk (bytesHex (sha256Bytes m))

/-! ## Payloads and the dedup key (`make_work_order_key`, lines 313–325)

A payload is the args mapping of the extracted tool call.  The fields the
key generator and the store read are strings in the data model, so a
payload is modelled as an association list `String × String` (Python's
`str(...)` coercion is the identity on strings, and dictionary keys are
unique).  `args.get(f, "")` is `getArg`. -/

/-- A payload: the extracted args mapping, with string-valued fields. -/
abbrev Payload := List (String × String)

/-- Python `args.get(f, "")`: the field value, or `""` when absent. -/
def getArg (args : Payload) (f : String) : String :=
  (List.lookup f args).getD ""

/-- `str(args.get(f, "")).strip().lower()` — the canonicalization applied
to each key field (source lines 318–322). -/
def canonField (args : Payload) (f : String) : String :=
  pyLower (pyStrip (getArg args f))

/-- `make_work_order_key` (source lines 313–325): SHA-256 hex digest of the
five canonicalized fields joined with `|` in the fixed order
asset, incident_type, severity, timestamp, summary. -/
def make_work_order_key (args : Payload) : String :=
  let asset := canonField args "asset"
  let incident_type := canonField args "incident_type"
  let severity := canonField args "severity"
  let summary := canonField args "summary"
  let incident_ts := canonField args "timestamp"
  let base := asset ++ "|" ++ incident_type ++ "|" ++ severity ++ "|" ++ incident_ts ++ "|" ++ summary
  sha256Hex (utf8Encode base)

/-- The five key fields, in the order the key joins them.  Spec §4.4:
"take exactly the fields `asset`, `incident_type`, `severity`,
`timestamp`, `summary` ... join ... in that fixed order". -/
def keyFields : List String :=
  ["asset", "incident_type", "severity", "timestamp", "summary"]

/-- Modelled from the spec (§4.4 wording, for the refinement claim C2):
for each of the five fields coerce missing to empty string, trim
surrounding whitespace, lowercase; join with a single `|` in the fixed
order asset, incident_type, severity, timestamp, summary. -/
def specCanonJoin (args : Payload) : String :=
  String.intercalate "|"
    [pyLower (pyStrip (getArg args "asset")),
     pyLower (pyStrip (getArg args "incident_type")),
     pyLower (pyStrip (getArg args "severity")),
     pyLower (pyStrip (getArg args "timestamp")),
     pyLower (pyStrip (getArg args "summary"))]

/-! ## The work-order store (`db_init`, `db_connect`, `upsert_work_order`)

SQLite is modelled relationally: `users` and `work_orders` are lists of
records.  `db_connect` (line 260) sets `PRAGMA foreign_keys=ON`, and the
schema (`db_init`, lines 264–294) declares `work_order_key TEXT NOT NULL
UNIQUE` and `FOREIGN KEY(created_by_user_id) REFERENCES users(id)`; so an
`INSERT` into `work_orders` raises `sqlite3.IntegrityError` exactly when
the key already exists or the creator id is not a user id (the `NOT NULL`
columns are always bound to non-null values by `upsert_work_order`). -/

/-- A row of the `users` table. -/
structure UserRecord where
  id : Nat
  email : String
  name : String
  created_at : String

/-- A row of the `work_orders` table. -/
structure WorkOrderRecord where
  id : Nat
  work_order_key : String
  created_at : String
  created_by_user_id : Nat
  asset : Option String
  incident_type : Option String
  severity : Option String
  location : Option String
  incident_timestamp : Option String
  summary : Option String
  raw_json : String

/-- The database state: the two tables of `db_init`. -/
structure DB where
  users : List UserRecord
  work_orders : List WorkOrderRecord

/-- Whether a work-order row with this key exists (the UNIQUE constraint). -/
def hasKey (db : DB) (k : String) : Bool :=
  db.work_orders.any (fun r => r.work_order_key == k)

/-- Whether a user row with this id exists (the FOREIGN KEY target). -/
def hasUser (db : DB) (uid : Nat) : Bool :=
  db.users.any (fun u => u.id == uid)

/-- Number of stored work orders carrying a given key. -/
def countKey (db : DB) (k : String) : Nat :=
  (db.work_orders.filter (fun r => r.work_order_key == k)).length

/-- Models `json.dumps(args, ensure_ascii=False)` on the payload: some
fixed injective rendering (its exact text is immaterial here). -/
def rawJsonOf (args : Payload) : String :=
  "\x7b" ++ String.intercalate ", " (args.map fun p => "\"" ++ p.1 ++ "\": \"" ++ p.2 ++ "\"") ++ "\x7d"

/-- The row `upsert_work_order` binds (source lines 335–357). -/
def newRecord (db : DB) (user_id : Nat) (args : Payload) (created_at : String) : WorkOrderRecord :=
  { id := db.work_orders.length + 1
    work_order_key := make_work_order_key args
    created_at := created_at
    created_by_user_id := user_id
    asset := List.lookup "asset" args
    incident_type := List.lookup "incident_type" args
    severity := List.lookup "severity" args
    location := List.lookup "location" args
    incident_timestamp := List.lookup "timestamp" args
    summary := List.lookup "summary" args
    raw_json := rawJsonOf args }

/-- `upsert_work_order` (source lines 328–362): attempt the INSERT; an
integrity violation (duplicate key, or — with foreign keys enforced —
a missing creator id) is caught and reported as `false` (Duplicate),
leaving the store unchanged.  `created_at` is the caller-supplied
`utc_now_iso()` value. -/
def upsert_work_order (db : DB) (user_id : Nat) (args : Payload) (created_at : String) :
    Bool × DB :=
  let wo_key := make_work_order_key args
  if hasKey db wo_key || !hasUser db user_id then
    (false, db)
  else
    (true, { db with work_orders := db.work_orders ++ [newRecord db user_id args created_at] })

/-! ## The event stream and the extraction loop
(`run_agent_stream_get_tool_args`, lines 108–153)

JSON values are the inductive `J`.  A raw stream line is either blank
after stripping, JSON-unparsable (`json.JSONDecodeError`), or a parsed
JSON value — the JSON grammar itself is abstracted into that trichotomy.
The loop body is translated statement for statement; the two uncaught
Python exceptions it can raise are modelled by `PyErr`:

* `attributeError`: a line parses to a non-object, and `obj.get("event")`
  (line 122) has no `.get` on it;
* `typeError`: `for tc in sd.get("tool_calls", []) or []` (line 137)
  iterates a truthy non-iterable (a number or `True`). -/

/-- A JSON value, as `json.loads` produces it. -/
inductive J where
  | null : J
  | bool : Bool → J
  | num : Int → J
  | str : String → J
  | arr : List J → J
  | obj : List (String × J) → J

/-- Python truthiness of a JSON value. -/
def jTruthy : J → Bool
  | J.null => false
  | J.bool b => b
  | J.num n => n != 0
  | J.str s => s != ""
  | J.arr l => !l.isEmpty
  | J.obj l => !l.isEmpty

/-- Python `x == "s"` for an optional JSON value against a string literal
(`dict.get` returns `None` when the field is absent, and `None == "s"`
is `False`). -/
def isStrEq (o : Option J) (s : String) : Bool :=
  match o with
  | some (J.str t) => t == s
  | _ => false

/-- `event_type in ("run.completed", "done")` (line 146). -/
def isTerminalKind (o : Option J) : Bool :=
  isStrEq o "run.completed" || isStrEq o "done"

/-- `sd.get("tool_calls", []) or []` followed by `for tc in ...`:
a falsy value iterates as empty; a list iterates its items; a dict
iterates its keys; a string iterates its characters; a truthy number
or `True` is not iterable (`TypeError`, modelled as `none`). -/
def pyIterOrEmpty (v : J) : Option (List J) :=
  if jTruthy v then
    match v with
    | J.arr l => some l
    | J.obj f => some (f.map fun p => J.str p.1)
    | J.str s => some (s.data.map fun c => J.str (String.mk [c]))
    | _ => none
  else
    some []

/-- An uncaught Python exception of the loop body. -/
inductive PyErr where
  | attributeError : PyErr
  | typeError : PyErr

/-- The two mutable loop variables `tool_args` / `tool_name`
(lines 93–94), i.e. the extractor state. -/
structure ExtState where
  tool_args : List (String × J)
  tool_name : Option J

/-- The loop body for one `tc` entry (lines 137–144): a dict entry with a
truthy `name` and a dict `args` replaces the state; anything else is
skipped. -/
def applyTC (st : ExtState) (tc : J) : ExtState :=
  match tc with
  | J.obj f =>
    match List.lookup "name" f, List.lookup "args" f with
    | some n, some (J.obj af) => if jTruthy n then ⟨af, some n⟩ else st
    | _, _ => st
  | _ => st

/-- The loop body for one `sd` entry (lines 133–144). -/
def applySD (st : ExtState) (sd : J) : Except PyErr ExtState :=
  match sd with
  | J.obj f =>
    if isStrEq (List.lookup "type" f) "tool_calls" then
      match pyIterOrEmpty ((List.lookup "tool_calls" f).getD (J.arr [])) with
      | none => .error .typeError
      | some tcs => .ok (tcs.foldl applyTC st)
    else .ok st
  | _ => .ok st

/-- `for sd in step_details` (line 133). -/
def foldSDs : ExtState → List J → Except PyErr ExtState
  | st, [] => .ok st
  | st, sd :: rest =>
    match applySD st sd with
    | .error e => .error e
    | .ok st2 => foldSDs st2 rest

/-- The `run.step.delta` branch given the `data` dict (lines 129–144):
`delta` must be a dict and `step_details` (default `[]`) a list. -/
def applyDeltaData (st : ExtState) (dataFields : List (String × J)) : Except PyErr ExtState :=
  match List.lookup "delta" dataFields with
  | some (J.obj deltaFields) =>
    match (List.lookup "step_details" deltaFields).getD (J.arr []) with
    | J.arr sds => foldSDs st sds
    | _ => .ok st
  | _ => .ok st

/-- One raw line of the response stream, after `decode`/`strip`
(lines 112–120): blank, JSON-unparsable, or a parsed JSON value. -/
inductive RawLine where
  | blank : RawLine
  | invalid : RawLine
  | valid : J → RawLine

/-- The streaming loop (lines 108–147): skip blank and unparsable lines;
`obj.get` on a non-object raises `AttributeError`; events whose `data`
is not a dict are skipped wholesale (`continue` at line 125 — including
the terminal-kind check); `run.step.delta` events update the extractor
state; a terminal kind with dict `data` breaks out of the loop. -/
def runLines : ExtState → List RawLine → Except PyErr ExtState
  | st, [] => .ok st
  | st, line :: rest =>
    match line with
    | .blank => runLines st rest
    | .invalid => runLines st rest
    | .valid (J.obj fields) =>
      match List.lookup "data" fields with
      | some (J.obj dataFields) =>
        let step :=
          if isStrEq (List.lookup "event" fields) "run.step.delta"
          then applyDeltaData st dataFields
          else .ok st
        match step with
        | .error e => .error e
        | .ok st2 =>
          if isTerminalKind (List.lookup "event" fields) then .ok st2
          else runLines st2 rest
      | _ => runLines st rest
    | .valid _ => .error .attributeError

/-- Python dict assignment `d[k] = v`: replace in place if the key
exists, else append. -/
def dictSet : List (String × J) → String → J → List (String × J)
  | [], k, v => [(k, v)]
  | (k2, v2) :: rest, k, v =>
    if k2 == k then (k, v) :: rest else (k2, v2) :: dictSet rest k v

/-- The outcome of one run of `run_agent_stream_get_tool_args`. -/
inductive RunResult where
  | ok : List (String × J) → RunResult
  | noToolArgs : RunResult
  | pyError : PyErr → RunResult

/-- `run_agent_stream_get_tool_args` (lines 93–153) applied to the decoded
line stream: run the loop from the empty state; if `tool_args` is empty
(`if not tool_args`, line 149) raise the extraction `RuntimeError`; else
set `tool_args["_tool_name"] = tool_name or ""` and return it. -/
def run_agent_stream_get_tool_args (lines : List RawLine) : RunResult :=
  match runLines ⟨[], none⟩ lines with
  | .error e => .pyError e
  | .ok st =>
    if st.tool_args.isEmpty then .noToolArgs
    else .ok (dictSet st.tool_args "_tool_name" (st.tool_name.getD (J.str "")))

/-! ## Spec-side capture sequence

The spec (§4.2) describes the extractor as "for each entry with a
non-empty `name` and an `args` value that is a mapping, replace the
current ToolCall ... the captured ToolCall at the end of the fold is the
last qualifying entry in stream order".  `linesCaptures` collects those
qualifying entries, in stream order, under the same control flow as the
loop; the correspondence theorems relate the loop to `getLast?` of this
sequence. -/

/-- A qualifying tool-call observation: its `name` and its `args`. -/
abbrev Capture := J × List (String × J)

/-- The qualifying entries of one `tc` value (none unless it is a dict
with truthy `name` and dict `args`). -/
def tcCapture (tc : J) : List Capture :=
  match tc with
  | J.obj f =>
    match List.lookup "name" f, List.lookup "args" f with
    | some n, some (J.obj af) => if jTruthy n then [(n, af)] else []
    | _, _ => []
  | _ => []

/-- The qualifying entries of one `sd` entry. -/
def sdCaptures (sd : J) : Except PyErr (List Capture) :=
  match sd with
  | J.obj f =>
    if isStrEq (List.lookup "type" f) "tool_calls" then
      match pyIterOrEmpty ((List.lookup "tool_calls" f).getD (J.arr [])) with
      | none => .error .typeError
      | some tcs => .ok (tcs.flatMap tcCapture)
    else .ok []
  | _ => .ok []

/-- The qualifying entries of a `step_details` list, in order. -/
def sdsCaptures : List J → Except PyErr (List Capture)
  | [] => .ok []
  | sd :: rest =>
    match sdCaptures sd with
    | .error e => .error e
    | .ok cs =>
      match sdsCaptures rest with
      | .error e => .error e
      | .ok cs2 => .ok (cs ++ cs2)

/-- The qualifying entries of one `data` dict of a `run.step.delta` event. -/
def deltaDataCaptures (dataFields : List (String × J)) : Except PyErr (List Capture) :=
  match List.lookup "delta" dataFields with
  | some (J.obj deltaFields) =>
    match (List.lookup "step_details" deltaFields).getD (J.arr []) with
    | J.arr sds => sdsCaptures sds
    | _ => .ok []
  | _ => .ok []

/-- All qualifying entries a run observes, in stream order, under the
loop's control flow (skips, early termination, uncaught exceptions). -/
def linesCaptures : List RawLine → Except PyErr (List Capture)
  | [] => .ok []
  | line :: rest =>
    match line with
    | .blank => linesCaptures rest
    | .invalid => linesCaptures rest
    | .valid (J.obj fields) =>
      match List.lookup "data" fields with
      | some (J.obj dataFields) =>
        let evCaps :=
          if isStrEq (List.lookup "event" fields) "run.step.delta"
          then deltaDataCaptures dataFields
          else .ok []
        match evCaps with
        | .error e => .error e
        | .ok cs =>
          if isTerminalKind (List.lookup "event" fields) then .ok cs
          else
            match linesCaptures rest with
            | .error e => .error e
            | .ok cs2 => .ok (cs ++ cs2)
      | _ => linesCaptures rest
    | .valid _ => .error .attributeError

/-- The extractor state a capture installs. -/
def capState (c : Capture) : ExtState :=
  ⟨c.2, some c.1⟩

/-- Replay a capture sequence over a state: each capture wholly replaces
the state. -/
def applyCaps (st : ExtState) (cs : List Capture) : ExtState :=
  cs.foldl (fun _ c => capState c) st

/-- The extractor state after a capture sequence, from the initial state:
the last capture, or the empty state. -/
def applyLast (cs : List Capture) : ExtState :=
  match cs.getLast? with
  | none => ⟨[], none⟩
  | some c => capState c

/-! ## Correspondence: the loop equals `getLast?` of the capture sequence -/

theorem applyCaps_append (st : ExtState) (cs cs2 : List Capture) :
    applyCaps st (cs ++ cs2) = applyCaps (applyCaps st cs) cs2 := by
  simp [applyCaps, List.foldl_append]

theorem applyTC_caps (st : ExtState) (tc : J) :
    applyTC st tc = applyCaps st (tcCapture tc) := by
  cases tc <;> try rfl
  case obj f =>
    simp only [applyTC, tcCapture]
    cases List.lookup "name" f with
    | none => rfl
    | some n =>
      cases List.lookup "args" f with
      | none => rfl
      | some a =>
        cases a <;> try rfl
        case obj af =>
          cases hjt : jTruthy n <;> simp [hjt, applyCaps, capState]

theorem foldl_applyTC_caps (l : List J) (st : ExtState) :
    l.foldl applyTC st = applyCaps st (l.flatMap tcCapture) := by
  induction l generalizing st with
  | nil => rfl
  | cons tc rest ih =>
    simp only [List.foldl_cons, List.flatMap_cons]
    rw [applyCaps_append, ← applyTC_caps, ih]

theorem applySD_caps (st : ExtState) (sd : J) :
    applySD st sd = (sdCaptures sd).map (applyCaps st) := by
  cases sd <;> try rfl
  case obj f =>
    simp only [applySD, sdCaptures]
    cases hts : isStrEq (List.lookup "type" f) "tool_calls" with
    | false => simp [hts, Except.map, applyCaps]
    | true =>
      simp only [hts, if_true]
      cases pyIterOrEmpty ((List.lookup "tool_calls" f).getD (J.arr [])) with
      | none => rfl
      | some tcs => simp [Except.map, foldl_applyTC_caps]

theorem foldSDs_caps (sds : List J) (st : ExtState) :
    foldSDs st sds = (sdsCaptures sds).map (applyCaps st) := by
  induction sds generalizing st with
  | nil => rfl
  | cons sd rest ih =>
    simp only [foldSDs, sdsCaptures]
    rw [applySD_caps]
    cases sdCaptures sd with
    | error e => rfl
    | ok cs =>
      simp only [Except.map]
      rw [ih]
      cases sdsCaptures rest with
      | error e => rfl
      | ok cs2 => simp [Except.map, applyCaps_append]

theorem applyDeltaData_caps (st : ExtState) (dataFields : List (String × J)) :
    applyDeltaData st dataFields = (deltaDataCaptures dataFields).map (applyCaps st) := by
  simp only [applyDeltaData, deltaDataCaptures]
  cases List.lookup "delta" dataFields with
  | none => rfl
  | some dv =>
    cases dv <;> try rfl
    case obj deltaFields =>
      dsimp only
      cases (List.lookup "step_details" deltaFields).getD (J.arr []) with
      | arr sds => exact foldSDs_caps sds st
      | null => rfl
      | bool b => rfl
      | num n => rfl
      | str s => rfl
      | obj o => rfl

theorem runLines_caps (lines : List RawLine) (st : ExtState) :
    runLines st lines = (linesCaptures lines).map (applyCaps st) := by
  induction lines generalizing st with
  | nil => rfl
  | cons line rest ih =>
    cases line with
    | blank => exact ih st
    | invalid => exact ih st
    | valid v =>
      cases v <;> try rfl
      case obj fields =>
        simp only [runLines, linesCaptures]
        cases List.lookup "data" fields with
        | none => exact ih st
        | some dv =>
          cases dv <;> try exact ih st
          case obj dataFields =>
            dsimp only
            rw [applyDeltaData_caps]
            split_ifs with hd ht
            · cases deltaDataCaptures dataFields <;> rfl
            · cases deltaDataCaptures dataFields with
              | error e => rfl
              | ok cs =>
                exact (ih _).trans (by
                  cases linesCaptures rest with
                  | error e => rfl
                  | ok cs2 =>
                    dsimp only [Except.map]
                    rw [applyCaps_append])
            · rfl
            · exact (ih st).trans (by cases linesCaptures rest <;> rfl)

theorem applyCaps_getLast (st : ExtState) (cs : List Capture) :
    applyCaps st cs = (match cs.getLast? with | none => st | some c => capState c) := by
  induction cs generalizing st with
  | nil => rfl
  | cons c rest ih =>
    cases rest with
    | nil => rfl
    | cons c2 rest2 =>
      have h1 : applyCaps st (c :: c2 :: rest2) = applyCaps (capState c) (c2 :: rest2) := rfl
      rw [h1, ih]
      rw [List.getLast?_cons_cons]
      cases hx : (c2 :: rest2).getLast? with
      | none => simp at hx
      | some c3 => rfl

theorem applyLast_eq (cs : List Capture) :
    applyLast cs = applyCaps ⟨[], none⟩ cs :=
  (applyCaps_getLast _ _).symm

/-- The loop, started from the empty state, lands on the last qualifying
capture (or the empty state), matching the crash of the capture sequence
when there is one. -/
theorem runLines_applyLast (lines : List RawLine) :
    runLines ⟨[], none⟩ lines = (linesCaptures lines).map (fun cs => applyLast cs) := by
  rw [runLines_caps]
  cases linesCaptures lines with
  | error e => rfl
  | ok cs => simp [Except.map, applyLast_eq]

/-! ## Digest shape lemmas -/

theorem bytesHex_length (l : List Nat) : (bytesHex l).length = 2 * l.length := by
  induction l with
  | nil => rfl
  | cons b r ih =>
    simp only [bytesHex, byteHex, List.length_append, List.length_cons, List.length_nil, ih]
    omega

theorem h8Bytes_length (hv : H8) : (h8Bytes hv).length = 32 := by
  simp [h8Bytes, beBytes4]

theorem sha256Bytes_length (m : List Nat) : (sha256Bytes m).length = 32 :=
  h8Bytes_length _

theorem sha256Hex_length (m : List Nat) : (sha256Hex m).length = 64 := by
  show (bytesHex (sha256Bytes m)).length = 64
  rw [bytesHex_length, sha256Bytes_length]

theorem hexDigitChar_mem (n : Nat) : hexDigitChar n ∈ hexChars := by
  unfold hexDigitChar
  by_cases h : n < 16
  · interval_cases n <;> decide
  · rw [List.getD_eq_default]
    · decide
    · have hlen : hexChars.length = 16 := rfl
      omega

theorem bytesHex_mem (l : List Nat) : ∀ c ∈ bytesHex l, c ∈ hexChars := by
  induction l with
  | nil => intro c hc; cases hc
  | cons b r ih =>
    intro c hc
    simp only [bytesHex, byteHex, List.cons_append, List.nil_append, List.mem_cons] at hc
    rcases hc with h | h | h
    · exact h ▸ hexDigitChar_mem _
    · exact h ▸ hexDigitChar_mem _
    · exact ih c h

theorem sha256Hex_mem (m : List Nat) : ∀ c ∈ (sha256Hex m).data, c ∈ hexChars :=
  bytesHex_mem _

/-! ## Claim theorems: dedup key and store -/

/-- C2.  `make_work_order_key` is the lowercase-hex SHA-256 digest of the
UTF-8 encoding of the five canonicalized fields (absent ↦ `""`, trimmed,
lowercased) joined by `|` in the fixed order asset, incident_type,
severity, timestamp, summary; it is deterministic, and the key is a
fixed-length (64-character) lowercase-hexadecimal string. -/
theorem make_work_order_key_spec (args : Payload) :
    make_work_order_key args = sha256Hex (utf8Encode (specCanonJoin args)) ∧
    (∀ args2 : Payload, args2 = args → make_work_order_key args2 = make_work_order_key args) ∧
    (make_work_order_key args).length = 64 ∧
    (∀ c ∈ (make_work_order_key args).data, c ∈ hexChars) := by
  refine ⟨rfl, fun args2 h => h ▸ rfl, sha256Hex_length _, sha256Hex_mem _⟩

/-- C2 witness: the key of a concrete payload has the stated digest form,
length 64, and only lowercase hex digits. -/
theorem make_work_order_key_spec_witness :
    make_work_order_key [("asset", "Bin 7"), ("severity", "P2"), ("incident_type", "overheat")] =
      sha256Hex (utf8Encode (specCanonJoin
        [("asset", "Bin 7"), ("severity", "P2"), ("incident_type", "overheat")])) ∧
    (∀ args2 : Payload, args2 = [("asset", "Bin 7"), ("severity", "P2"), ("incident_type", "overheat")] →
      make_work_order_key args2 =
        make_work_order_key [("asset", "Bin 7"), ("severity", "P2"), ("incident_type", "overheat")]) ∧
    (make_work_order_key [("asset", "Bin 7"), ("severity", "P2"), ("incident_type", "overheat")]).length = 64 ∧
    (∀ c ∈ (make_work_order_key [("asset", "Bin 7"), ("severity", "P2"), ("incident_type", "overheat")]).data,
      c ∈ hexChars) :=
  make_work_order_key_spec [("asset", "Bin 7"), ("severity", "P2"), ("incident_type", "overheat")]

/-- C8.  Canonicalization invariance: two payloads whose five key fields
agree up to surrounding whitespace and letter case (i.e. agree after
trim + lowercase) get the same key, whatever their other fields are. -/
theorem key_canonicalization_invariance (p q : Payload)
    (h : ∀ f ∈ keyFields, pyLower (pyStrip (getArg p f)) = pyLower (pyStrip (getArg q f))) :
    make_work_order_key p = make_work_order_key q := by
  have ha := h "asset" (by decide)
  have hi := h "incident_type" (by decide)
  have hs := h "severity" (by decide)
  have ht := h "timestamp" (by decide)
  have hu := h "summary" (by decide)
  simp only [make_work_order_key, canonField, ha, hi, hs, ht, hu]

/-- C8 witness: a payload with shifted case and added surrounding
whitespace in the key fields keeps the key of the plain payload. -/
theorem key_canonicalization_invariance_witness :
    make_work_order_key [("asset", "Bin 7"), ("severity", "P2"), ("summary", "temp rising")] =
      make_work_order_key [("asset", "  BIN 7 "), ("severity", "p2"), ("summary", "Temp Rising\t"), ("location", "north")] :=
  key_canonicalization_invariance _ _ (by decide)

/-- C9.  Field irrelevance: two payloads that agree on the five key fields
(differing only in `hypotheses`, `actions`, `location`, or any other
field outside the set) get the same key, and the store therefore treats
the second as a duplicate of the first: once the first is inserted,
upserting the second returns `false` and leaves the store unchanged. -/
theorem key_field_irrelevance (p q : Payload)
    (h : ∀ f ∈ keyFields, getArg p f = getArg q f) :
    make_work_order_key p = make_work_order_key q ∧
    (∀ (db : DB) (uid : Nat) (now now2 : String),
      (upsert_work_order db uid p now).1 = true →
      (upsert_work_order (upsert_work_order db uid p now).2 uid q now2).1 = false ∧
      (upsert_work_order (upsert_work_order db uid p now).2 uid q now2).2 =
        (upsert_work_order db uid p now).2) := by
  have hk : make_work_order_key p = make_work_order_key q := by
    have ha := h "asset" (by decide)
    have hi := h "incident_type" (by decide)
    have hs := h "severity" (by decide)
    have ht := h "timestamp" (by decide)
    have hu := h "summary" (by decide)
    simp only [make_work_order_key, canonField, ha, hi, hs, ht, hu]
  refine ⟨hk, fun db uid now now2 h1 => ?_⟩
  by_cases hc : (hasKey db (make_work_order_key p) || !hasUser db uid) = true
  · simp [upsert_work_order, hc] at h1
  · simp only [upsert_work_order, hc, if_false, if_neg hc] at h1 ⊢
    have hk2 : hasKey { db with work_orders := db.work_orders ++ [newRecord db uid p now] }
        (make_work_order_key q) = true := by
      simp only [hasKey, List.any_append, Bool.or_eq_true, List.any_eq_true, beq_iff_eq, ← hk]
      exact Or.inr (by simp [newRecord])
    simp [hk2]

/-- C9 witness: payloads differing only in `location` and `hypotheses`
dedup to the same key; after inserting the first into a fresh store with
its creator present, upserting the second is rejected with the store
untouched. -/
theorem key_field_irrelevance_witness :
    make_work_order_key [("asset", "Bin 7"), ("severity", "P2"), ("location", "north")] =
      make_work_order_key [("asset", "Bin 7"), ("severity", "P2"), ("location", "south"), ("hypotheses", "fan fault")] ∧
    (∀ (db : DB) (uid : Nat) (now now2 : String),
      (upsert_work_order db uid [("asset", "Bin 7"), ("severity", "P2"), ("location", "north")] now).1 = true →
      (upsert_work_order (upsert_work_order db uid [("asset", "Bin 7"), ("severity", "P2"), ("location", "north")] now).2
          uid [("asset", "Bin 7"), ("severity", "P2"), ("location", "south"), ("hypotheses", "fan fault")] now2).1 = false ∧
      (upsert_work_order (upsert_work_order db uid [("asset", "Bin 7"), ("severity", "P2"), ("location", "north")] now).2
          uid [("asset", "Bin 7"), ("severity", "P2"), ("location", "south"), ("hypotheses", "fan fault")] now2).2 =
        (upsert_work_order db uid [("asset", "Bin 7"), ("severity", "P2"), ("location", "north")] now).2) :=
  key_field_irrelevance _ _ (by decide)

/-- C1.  Idempotent persistence: for any payload and any store where the
creator exists and the key is fresh, the first upsert returns `true`
(Inserted) and the second returns `false` (Duplicate); the second leaves
the store exactly as the first left it (no new record, the stored record
untouched), and the store then holds exactly one record for that key. -/
theorem upsert_twice_idempotent (db : DB) (uid : Nat) (args : Payload) (now now2 : String)
    (h1 : hasUser db uid = true) (h2 : hasKey db (make_work_order_key args) = false) :
    (upsert_work_order db uid args now).1 = true ∧
    (upsert_work_order (upsert_work_order db uid args now).2 uid args now2).1 = false ∧
    (upsert_work_order (upsert_work_order db uid args now).2 uid args now2).2 =
      (upsert_work_order db uid args now).2 ∧
    countKey (upsert_work_order db uid args now).2 (make_work_order_key args) = 1 := by
  have hcond : (hasKey db (make_work_order_key args) || !hasUser db uid) = false := by
    rw [h1, h2]; rfl
  have e1 : upsert_work_order db uid args now =
      (true, { db with work_orders := db.work_orders ++ [newRecord db uid args now] }) := by
    simp [upsert_work_order, hcond]
  have hk1 : hasKey { db with work_orders := db.work_orders ++ [newRecord db uid args now] }
      (make_work_order_key args) = true := by
    simp only [hasKey, List.any_append, Bool.or_eq_true, List.any_eq_true, beq_iff_eq]
    exact Or.inr ⟨newRecord db uid args now, by simp, rfl⟩
  have e2 : upsert_work_order
      { db with work_orders := db.work_orders ++ [newRecord db uid args now] } uid args now2 =
      (false, { db with work_orders := db.work_orders ++ [newRecord db uid args now] }) := by
    simp [upsert_work_order, hk1]
  have hnil : db.work_orders.filter (fun r => r.work_order_key == make_work_order_key args) = [] := by
    rw [List.filter_eq_nil_iff]
    intro r hr
    have := List.any_eq_false.mp h2 r hr
    simpa using this
  have hcount : countKey { db with work_orders := db.work_orders ++ [newRecord db uid args now] }
      (make_work_order_key args) = 1 := by
    simp [countKey, List.filter_append, hnil, newRecord]
  refine ⟨by rw [e1], ?_, ?_, by rw [e1]; exact hcount⟩
  · rw [e1]
    dsimp only
    rw [e2]
  · rw [e1]
    dsimp only
    rw [e2]

/-- C1 witness: a fresh store holding only the default user, a concrete
payload: first upsert inserts, second is a duplicate leaving the store
unchanged with exactly one record for the key. -/
theorem upsert_twice_idempotent_witness :
    (upsert_work_order ⟨[⟨1, "default_user@farm.local", "Farm Ops Default", "t0"⟩], []⟩ 1
      [("asset", "Bin 7"), ("severity", "P2")] "t1").1 = true ∧
    (upsert_work_order (upsert_work_order ⟨[⟨1, "default_user@farm.local", "Farm Ops Default", "t0"⟩], []⟩ 1
      [("asset", "Bin 7"), ("severity", "P2")] "t1").2 1 [("asset", "Bin 7"), ("severity", "P2")] "t2").1 = false ∧
    (upsert_work_order (upsert_work_order ⟨[⟨1, "default_user@farm.local", "Farm Ops Default", "t0"⟩], []⟩ 1
      [("asset", "Bin 7"), ("severity", "P2")] "t1").2 1 [("asset", "Bin 7"), ("severity", "P2")] "t2").2 =
      (upsert_work_order ⟨[⟨1, "default_user@farm.local", "Farm Ops Default", "t0"⟩], []⟩ 1
        [("asset", "Bin 7"), ("severity", "P2")] "t1").2 ∧
    countKey (upsert_work_order ⟨[⟨1, "default_user@farm.local", "Farm Ops Default", "t0"⟩], []⟩ 1
      [("asset", "Bin 7"), ("severity", "P2")] "t1").2
      (make_work_order_key [("asset", "Bin 7"), ("severity", "P2")]) = 1 :=
  upsert_twice_idempotent _ 1 _ "t1" "t2" (by decide) rfl

/-- C10.  `upsert_work_order` reports `false` (Duplicate) exactly on a
storage integrity violation — a key collision or, with foreign keys
enforced, a creator id absent from `users`; in particular a missing
creator alone yields `false` with the store unchanged, so a `false`
result does not guarantee that a record with the computed key exists. -/
theorem upsert_false_iff_integrity_violation (db : DB) (uid : Nat) (args : Payload) (now : String) :
    ((upsert_work_order db uid args now).1 = false ↔
      (hasKey db (make_work_order_key args) || !hasUser db uid) = true) ∧
    (hasUser db uid = false →
      (upsert_work_order db uid args now).1 = false ∧
      (upsert_work_order db uid args now).2 = db) := by
  constructor
  · cases hc : (hasKey db (make_work_order_key args) || !hasUser db uid) with
    | true => simp [upsert_work_order, hc]
    | false => simp [upsert_work_order, hc]
  · intro h
    have hc : (hasKey db (make_work_order_key args) || !hasUser db uid) = true := by
      rw [h]; simp
    simp [upsert_work_order, hc]

/-- C10 witness: on the empty store (no users, no work orders), upsert
returns `false` with nothing stored — and no record with the computed key
exists, so Duplicate does not certify the key's presence. -/
theorem upsert_false_iff_integrity_violation_witness :
    ((upsert_work_order ⟨[], []⟩ 1 [("asset", "Bin 7")] "t1").1 = false ∧
     (upsert_work_order ⟨[], []⟩ 1 [("asset", "Bin 7")] "t1").2 = (⟨[], []⟩ : DB)) ∧
    hasKey (upsert_work_order ⟨[], []⟩ 1 [("asset", "Bin 7")] "t1").2
      (make_work_order_key [("asset", "Bin 7")]) = false :=
  ⟨(upsert_false_iff_integrity_violation ⟨[], []⟩ 1 [("asset", "Bin 7")] "t1").2 rfl,
   by
    have h := ((upsert_false_iff_integrity_violation ⟨[], []⟩ 1 [("asset", "Bin 7")] "t1").2 rfl).2
    rw [h]
    rfl⟩

/-! ## Stream fixtures -/

/-- A well-formed `run.step.delta` event carrying one tool call. -/
def mkDelta (name : String) (args : List (String × J)) : RawLine :=
  RawLine.valid (J.obj
    [("event", J.str "run.step.delta"),
     ("data", J.obj
       [("delta", J.obj
         [("step_details", J.arr
           [J.obj
             [("type", J.str "tool_calls"),
              ("tool_calls", J.arr
                [J.obj [("name", J.str name), ("args", J.obj args)]])]])])])])

/-- The terminal event `{"event":"done","data":{}}`. -/
def doneEvent : RawLine :=
  RawLine.valid (J.obj [("event", J.str "done"), ("data", J.obj [])])

/-- A `done` event without a `data` mapping. -/
def doneNoData : RawLine :=
  RawLine.valid (J.obj [("event", J.str "done")])

/-- The delta event of the spec's end-to-end scenario (§8). -/
def scenarioDelta : RawLine :=
  mkDelta "log_incident"
    [("asset", J.str "Bin 7"), ("severity", J.str "P2"), ("incident_type", J.str "overheat")]

/-- The spec's end-to-end scenario stream. -/
def scenarioStream : List RawLine := [scenarioDelta, doneEvent]

/-- First delta of the last-write-wins example: args `{"asset":"Bin7"}`. -/
def delta1 : RawLine := mkDelta "log_incident" [("asset", J.str "Bin7")]

/-- Second delta of the last-write-wins example:
args `{"asset":"Bin7","severity":"P2"}`. -/
def delta2 : RawLine := mkDelta "log_incident" [("asset", J.str "Bin7"), ("severity", J.str "P2")]

/-- Field access on a run result (for stating what the payload holds). -/
def resultLookup (r : RunResult) (k : String) : Option J :=
  match r with
  | RunResult.ok p => List.lookup k p
  | _ => none

/-! ## Claim theorems: streaming extraction -/

/-- C3 counterexample: on the spec's end-to-end scenario the run result is
not the args plus a field named `tool_name` — the synthetic field the code
adds (line 152) is named `_tool_name`. -/
theorem run_tool_name_field_cex :
    run_agent_stream_get_tool_args scenarioStream ≠
      RunResult.ok [("asset", J.str "Bin 7"), ("severity", J.str "P2"),
                    ("incident_type", J.str "overheat"), ("tool_name", J.str "log_incident")] ∧
    resultLookup (run_agent_stream_get_tool_args scenarioStream) "tool_name" = none ∧
    resultLookup (run_agent_stream_get_tool_args scenarioStream) "_tool_name" =
      some (J.str "log_incident") := by
  refine ⟨?_, rfl, rfl⟩
  intro hcontr
  have h1 : resultLookup (run_agent_stream_get_tool_args scenarioStream) "tool_name" = none := rfl
  rw [hcontr] at h1
  exact Option.noConfusion h1

/-- C3 (amended): whenever the capture sequence of a stream ends in a
capture with a nonempty args mapping, the run result is that last
captured ToolCall's args augmented with the synthetic field `_tool_name`
holding the ToolCall's name. -/
theorem run_result_last_toolcall (lines : List RawLine) (caps : List Capture) (c : Capture)
    (h1 : linesCaptures lines = Except.ok caps)
    (h2 : caps.getLast? = some c)
    (h3 : c.2.isEmpty = false) :
    run_agent_stream_get_tool_args lines = RunResult.ok (dictSet c.2 "_tool_name" c.1) := by
  have ha : applyLast caps = capState c := by
    unfold applyLast
    rw [h2]
  unfold run_agent_stream_get_tool_args
  rw [runLines_applyLast, h1]
  dsimp only [Except.map]
  rw [ha]
  dsimp only [capState]
  simp [h3]

/-- C3 amended-claim witness (the "in particular" scenario): the run on
the end-to-end stream yields the extracted args plus `_tool_name`. -/
theorem run_result_last_toolcall_witness :
    run_agent_stream_get_tool_args scenarioStream =
      RunResult.ok [("asset", J.str "Bin 7"), ("severity", J.str "P2"),
                    ("incident_type", J.str "overheat"), ("_tool_name", J.str "log_incident")] :=
  run_result_last_toolcall scenarioStream
    [(J.str "log_incident",
      [("asset", J.str "Bin 7"), ("severity", J.str "P2"), ("incident_type", J.str "overheat")])]
    (J.str "log_incident",
      [("asset", J.str "Bin 7"), ("severity", J.str "P2"), ("incident_type", J.str "overheat")])
    rfl rfl rfl

/-- C4.  Last-write-wins: the fold's final state is exactly the last
qualifying entry of the capture sequence (the empty state when there is
none); entries missing `name`, and entries whose `args` is not a
mapping, are ignored without error. -/
theorem extractor_last_write_wins (lines : List RawLine) (caps : List Capture)
    (h : linesCaptures lines = Except.ok caps) :
    runLines ⟨[], none⟩ lines = Except.ok (applyLast caps) ∧
    (∀ (st : ExtState) (f : List (String × J)),
      List.lookup "name" f = none → applyTC st (J.obj f) = st) ∧
    (∀ (st : ExtState) (f : List (String × J)) (v : J),
      List.lookup "args" f = some v → (∀ af, v ≠ J.obj af) → applyTC st (J.obj f) = st) := by
  refine ⟨?_, ?_, ?_⟩
  · rw [runLines_applyLast, h]
    rfl
  · intro st f hname
    simp [applyTC, hname]
  · intro st f v hargs hv
    cases hname : List.lookup "name" f with
    | none => simp [applyTC, hname]
    | some n =>
      cases v with
      | obj af => exact absurd rfl (hv af)
      | null => simp [applyTC, hname, hargs]
      | bool b => simp [applyTC, hname, hargs]
      | num m => simp [applyTC, hname, hargs]
      | str s => simp [applyTC, hname, hargs]
      | arr l => simp [applyTC, hname, hargs]

/-- C4 witness (the spec's example): two deltas carrying args
`{"asset":"Bin7"}` then `{"asset":"Bin7","severity":"P2"}` — the fold
lands on the second, and the run result is the second plus `_tool_name`. -/
theorem extractor_last_write_wins_witness :
    runLines ⟨[], none⟩ [delta1, delta2, doneEvent] =
      Except.ok (applyLast
        [(J.str "log_incident", [("asset", J.str "Bin7")]),
         (J.str "log_incident", [("asset", J.str "Bin7"), ("severity", J.str "P2")])]) ∧
    run_agent_stream_get_tool_args [delta1, delta2, doneEvent] =
      RunResult.ok [("asset", J.str "Bin7"), ("severity", J.str "P2"),
                    ("_tool_name", J.str "log_incident")] :=
  ⟨(extractor_last_write_wins [delta1, delta2, doneEvent] _ rfl).1, rfl⟩

/-- C5 counterexample: a stream whose single tool call has an empty args
mapping — one ToolCall is captured, yet the run raises the extraction
failure instead of returning a payload. -/
theorem extraction_failure_cex :
    linesCaptures [mkDelta "t" [], doneEvent] = Except.ok [(J.str "t", [])] ∧
    run_agent_stream_get_tool_args [mkDelta "t" [], doneEvent] = RunResult.noToolArgs :=
  ⟨rfl, rfl⟩

/-- C5 (amended): a run (whose capture sequence does not crash) fails with
the extraction error iff the args mapping it ends on — that of the last
captured ToolCall, or the initial empty mapping when nothing was captured
— is empty; when that mapping is nonempty the run returns a payload. -/
theorem extraction_failure_iff (lines : List RawLine) (caps : List Capture)
    (h : linesCaptures lines = Except.ok caps) :
    (run_agent_stream_get_tool_args lines = RunResult.noToolArgs ↔
      (applyLast caps).tool_args = []) ∧
    ((applyLast caps).tool_args ≠ [] →
      ∃ p, run_agent_stream_get_tool_args lines = RunResult.ok p) := by
  unfold run_agent_stream_get_tool_args
  rw [runLines_applyLast, h]
  dsimp only [Except.map]
  cases hx : (applyLast caps).tool_args with
  | nil => simp
  | cons a l =>
    constructor
    · simp
    · intro hne
      exact ⟨dictSet (a :: l) "_tool_name" ((applyLast caps).tool_name.getD (J.str "")), by simp⟩

/-- C5 amended-claim witness: on the end-to-end scenario (nonempty args)
the run does not fail and returns a payload. -/
theorem extraction_failure_iff_witness :
    (run_agent_stream_get_tool_args scenarioStream = RunResult.noToolArgs ↔
      (applyLast
        [(J.str "log_incident",
          [("asset", J.str "Bin 7"), ("severity", J.str "P2"),
           ("incident_type", J.str "overheat")])]).tool_args = []) ∧
    ((applyLast
        [(J.str "log_incident",
          [("asset", J.str "Bin 7"), ("severity", J.str "P2"),
           ("incident_type", J.str "overheat")])]).tool_args ≠ [] →
      ∃ p, run_agent_stream_get_tool_args scenarioStream = RunResult.ok p) :=
  extraction_failure_iff scenarioStream _ rfl

/-- C6 counterexample: a line that parses as JSON but not as an object
(here the number `5`) is fatal — `obj.get` raises an uncaught
`AttributeError` — rather than being dropped: the run differs from the
run on the same stream with that line removed. -/
theorem malformed_line_cex :
    run_agent_stream_get_tool_args [delta1, RawLine.valid (J.num 5), delta2, doneEvent] =
      RunResult.pyError PyErr.attributeError ∧
    run_agent_stream_get_tool_args [delta1, delta2, doneEvent] =
      RunResult.ok [("asset", J.str "Bin7"), ("severity", J.str "P2"),
                    ("_tool_name", J.str "log_incident")] ∧
    run_agent_stream_get_tool_args [delta1, RawLine.valid (J.num 5), delta2, doneEvent] ≠
      run_agent_stream_get_tool_args [delta1, delta2, doneEvent] :=
  ⟨rfl, rfl, fun hcontr => RunResult.noConfusion hcontr⟩

/-- A line the loop skips: blank, or not valid JSON at all. -/
def isJunk : RawLine → Bool
  | RawLine.blank => true
  | RawLine.invalid => true
  | RawLine.valid _ => false

theorem runLines_filter_junk (lines : List RawLine) (st : ExtState) :
    runLines st lines = runLines st (lines.filter fun l => !isJunk l) := by
  induction lines generalizing st with
  | nil => rfl
  | cons line rest ih =>
    cases line with
    | blank => exact ih st
    | invalid => exact ih st
    | valid v =>
      have hf : (RawLine.valid v :: rest).filter (fun l => !isJunk l) =
          RawLine.valid v :: rest.filter (fun l => !isJunk l) := by
        simp [isJunk]
      rw [hf]
      cases v <;> try rfl
      case obj fields =>
        simp only [runLines]
        cases List.lookup "data" fields with
        | none => exact ih st
        | some dv =>
          cases dv <;> try exact ih st
          case obj dataFields =>
            dsimp only
            cases (if isStrEq (List.lookup "event" fields) "run.step.delta" = true
                   then applyDeltaData st dataFields else Except.ok st) with
            | error e => rfl
            | ok st2 =>
              split_ifs with ht
              · rfl
              · exact ih st2

/-- C6 (amended): blank lines and JSON-unparsable lines are dropped and
decoding continues — the run result is invariant under removing them —
and a stream with one unparsable line between two valid deltas still
yields the second delta's tool call.  (A line that parses to a non-object
JSON value is, by contrast, fatal — see the counterexample.) -/
theorem malformed_lines_skipped (lines : List RawLine) :
    run_agent_stream_get_tool_args lines =
      run_agent_stream_get_tool_args (lines.filter fun l => !isJunk l) ∧
    run_agent_stream_get_tool_args [delta1, RawLine.invalid, delta2, doneEvent] =
      RunResult.ok [("asset", J.str "Bin7"), ("severity", J.str "P2"),
                    ("_tool_name", J.str "log_incident")] := by
  constructor
  · unfold run_agent_stream_get_tool_args
    rw [runLines_filter_junk]
  · rfl

/-- C7 counterexample: a `done` event without a `data` mapping does not
stop the run (the terminal check sits behind the `isinstance(data, dict)`
guard) — a tool call in a later event is still applied, and the run
result differs from the result of the prefix ending at that event. -/
theorem terminal_event_cex :
    run_agent_stream_get_tool_args [doneNoData, delta2, doneEvent] =
      RunResult.ok [("asset", J.str "Bin7"), ("severity", J.str "P2"),
                    ("_tool_name", J.str "log_incident")] ∧
    run_agent_stream_get_tool_args [doneNoData] = RunResult.noToolArgs ∧
    run_agent_stream_get_tool_args [doneNoData, delta2, doneEvent] ≠
      run_agent_stream_get_tool_args [doneNoData] :=
  ⟨rfl, rfl, fun hcontr => RunResult.noConfusion hcontr⟩

/-- A terminal line: kind `run.completed` or `done` AND a mapping `data`. -/
def isTerminalLine : RawLine → Bool
  | RawLine.valid (J.obj f) =>
    (match List.lookup "data" f with
     | some (J.obj _) => isTerminalKind (List.lookup "event" f)
     | _ => false)
  | _ => false

theorem runLines_stops_at_terminal (pre post : List RawLine) (t : RawLine)
    (hpre : ∀ l ∈ pre, isTerminalLine l = false)
    (ht : isTerminalLine t = true) (st : ExtState) :
    runLines st (pre ++ t :: post) = runLines st (pre ++ [t]) := by
  induction pre generalizing st with
  | nil =>
    cases t with
    | blank => simp [isTerminalLine] at ht
    | invalid => simp [isTerminalLine] at ht
    | valid v =>
      cases v with
      | obj f =>
        cases hd : List.lookup "data" f with
        | none => simp [isTerminalLine, hd] at ht
        | some dv =>
          cases dv with
          | obj df =>
            simp only [isTerminalLine, hd] at ht
            simp only [List.nil_append, runLines, hd]
            cases (if isStrEq (List.lookup "event" f) "run.step.delta" = true
                   then applyDeltaData st df else Except.ok st) with
            | error e => rfl
            | ok st2 => simp [ht]
          | null => simp [isTerminalLine, hd] at ht
          | bool b => simp [isTerminalLine, hd] at ht
          | num n => simp [isTerminalLine, hd] at ht
          | str s => simp [isTerminalLine, hd] at ht
          | arr l => simp [isTerminalLine, hd] at ht
      | null => simp [isTerminalLine] at ht
      | bool b => simp [isTerminalLine] at ht
      | num n => simp [isTerminalLine] at ht
      | str s => simp [isTerminalLine] at ht
      | arr l => simp [isTerminalLine] at ht
  | cons l pre2 ih =>
    have hl : isTerminalLine l = false := hpre l (List.mem_cons_self l pre2)
    have hpre2 : ∀ x ∈ pre2, isTerminalLine x = false :=
      fun x hx => hpre x (List.mem_cons_of_mem _ hx)
    cases l with
    | blank => exact ih hpre2 st
    | invalid => exact ih hpre2 st
    | valid v =>
      cases v <;> try rfl
      case obj f =>
        simp only [List.cons_append, runLines]
        cases hd : List.lookup "data" f with
        | none => exact ih hpre2 st
        | some dv =>
          cases dv <;> try exact ih hpre2 st
          case obj df =>
            dsimp only
            have hterm : isTerminalKind (List.lookup "event" f) = false := by
              simpa [isTerminalLine, hd] using hl
            cases (if isStrEq (List.lookup "event" f) "run.step.delta" = true
                   then applyDeltaData st df else Except.ok st) with
            | error e => rfl
            | ok st2 =>
              simp only [hterm, Bool.false_eq_true, if_false]
              exact ih hpre2 st2

/-- C7 (amended): upon the first event whose kind is `run.completed` or
`done` and whose `data` is a mapping, the run stops reading — no later
event is ever applied, so the run result equals the result of the prefix
ending at that terminal event. -/
theorem terminal_stops_reading (pre post : List RawLine) (t : RawLine)
    (hpre : ∀ l ∈ pre, isTerminalLine l = false)
    (ht : isTerminalLine t = true) :
    run_agent_stream_get_tool_args (pre ++ t :: post) =
      run_agent_stream_get_tool_args (pre ++ [t]) := by
  unfold run_agent_stream_get_tool_args
  rw [runLines_stops_at_terminal pre post t hpre ht]

/-- C7 amended-claim witness: a delta, then a proper terminal event, then
a stray delta — the run equals the run on the prefix ending at the
terminal event. -/
theorem terminal_stops_reading_witness :
    run_agent_stream_get_tool_args ([delta1] ++ doneEvent :: [delta2]) =
      run_agent_stream_get_tool_args ([delta1] ++ [doneEvent]) :=
  terminal_stops_reading [delta1] [delta2] doneEvent (by decide) (by decide)

/-! ## SHA-256 model validation (FIPS 180-4 test vectors) -/

set_option maxRecDepth 8192 in
/-- The SHA-256 model agrees with the FIPS 180-4 vector for the empty
message, grounding `sha256Hex` as a model of `hashlib.sha256`. -/
theorem sha256Hex_vector_empty :
    sha256Hex (utf8Encode "") =
      "e3b0c44298fc1c149afbf4c8996fb92427ae41e4649b934ca495991b7852b855" := by
  decide

set_option maxRecDepth 8192 in
/-- The SHA-256 model agrees with the FIPS 180-4 vector for `"abc"`. -/
theorem sha256Hex_vector_abc :
    sha256Hex (utf8Encode "abc") =
      "ba7816bf8f01cfea414140de5dae2223b00361a396177a9cb410ff61f20015ad" := by
  decide

end FarmPolice
